import Mathlib

/-!
Verification of the streaming core of the `clamav-api-sdk-node` client
library, against a shallow embedding of its TypeScript source.

Bytes are modelled as `Nat`, a `Buffer` as `List Nat`, and a finite
fragment sequence (the chunks a `Readable` yields) as `List (List Nat)`.
The embedding covers:

* `chunkStream` (src/utils/stream.ts) — the Chunker;
* `sendStreamChunks` (src/grpc/client.ts) — the Frame Sender;
* the event-driven consumer loop of the gRPC `scanMultiple` driver;
* the REST `scanMultiple` loop over `Promise.allSettled` results;
* the effect order of the cancellation wiring in both clients.
-/

namespace ClamAV

/-! ## Chunker (`chunkStream`, src/utils/stream.ts)

The source keeps a `pending : Buffer[]` accumulator plus `pendingBytes`,
its total byte count.  Because the inner `while` loop merges `pending`
into one contiguous buffer before slicing (`Buffer.concat`, skipped as an
optimisation when the list has exactly one element), only the
concatenation of `pending` is semantically relevant; the embedding
carries that concatenation (`acc : List Nat`) directly, and
`pendingBytes` is its length.

The inner `while (pendingBytes >= chunkSize)` loop is embedded with
explicit fuel: for `chunkSize ≥ 1` every iteration removes exactly
`chunkSize` bytes from the accumulator, so `acc.length` units of fuel
are always sufficient (proved below); for `chunkSize = 0` the source
loop never exits (the condition `pendingBytes >= 0` is always true and
the remainder put back equals the merged buffer), which the embedding
renders as fuel exhaustion: `none` for every amount of fuel. -/

/-- One run of the inner `while (pendingBytes >= chunkSize)` loop of
`chunkStream`, with fuel.  Returns the frames yielded by this run and
the remaining pending bytes, or `none` when the fuel is exhausted with
the loop condition still true (the source loop would still be
running). -/
def chunkWhileFuel (chunkSize : Nat) : Nat → List Nat → Option (List (List Nat) × List Nat)
  | 0, acc => if chunkSize ≤ acc.length then none else some ([], acc)
  | fuel + 1, acc =>
    if chunkSize ≤ acc.length then
      match chunkWhileFuel chunkSize fuel (acc.drop chunkSize) with
      | none => none
      | some (frames, rest) => some (acc.take chunkSize :: frames, rest)
    else some ([], acc)

/-- The `for await (const data of source)` loop of `chunkStream`: each
fragment is appended to the pending accumulator (`pending.push(buf)`,
`pendingBytes += buf.length`) and then the inner `while` loop runs.
The fuel `(acc ++ frag).length` is sufficient whenever `chunkSize ≥ 1`. -/
def chunkOuter (chunkSize : Nat) : List (List Nat) → List Nat → Option (List (List Nat) × List Nat)
  | [], acc => some ([], acc)
  | frag :: frags, acc =>
    match chunkWhileFuel chunkSize (acc ++ frag).length (acc ++ frag) with
    | none => none
    | some (frames, rest) =>
      match chunkOuter chunkSize frags rest with
      | none => none
      | some (frames', restFin) => some (frames ++ frames', restFin)

/-- `chunkStream(source, chunkSize)`: run the fragment loop starting
from an empty accumulator, then flush the final short frame
(`if (pendingBytes > 0) yield ...`).  `none` models divergence of the
source generator (possible only for `chunkSize = 0`). -/
def chunkStream (chunkSize : Nat) (frags : List (List Nat)) : Option (List (List Nat)) :=
  match chunkOuter chunkSize frags [] with
  | none => none
  | some (frames, rest) => some (if 0 < rest.length then frames ++ [rest] else frames)

/-- For a positive frame size the inner loop always terminates within
`acc.length` steps of fuel, emits only frames of length exactly
`chunkSize`, leaves fewer than `chunkSize` pending bytes, and preserves
the bytes: frames ++ rest re-concatenate to the accumulator. -/
theorem chunkWhileFuel_spec (F : Nat) (hF : 1 ≤ F) :
    ∀ fuel acc, acc.length ≤ fuel →
      ∃ frames rest, chunkWhileFuel F fuel acc = some (frames, rest) ∧
        frames.flatten ++ rest = acc ∧
        (∀ f ∈ frames, f.length = F) ∧
        rest.length < F := by
  intro fuel
  induction fuel with
  | zero =>
    intro acc hacc
    have hnil : acc = [] := List.eq_nil_of_length_eq_zero (Nat.le_zero.mp hacc)
    subst hnil
    refine ⟨[], [], ?_, rfl, by simp, hF⟩
    simp [chunkWhileFuel, Nat.lt_of_lt_of_le Nat.zero_lt_one hF]
    omega
  | succ fuel ih =>
    intro acc hacc
    by_cases hcond : F ≤ acc.length
    · have hdrop : (acc.drop F).length ≤ fuel := by
        rw [List.length_drop]
        omega
      obtain ⟨frames, rest, heq, hflat, hlen, hrest⟩ := ih (acc.drop F) hdrop
      refine ⟨acc.take F :: frames, rest, ?_, ?_, ?_, hrest⟩
      · simp only [chunkWhileFuel, if_pos hcond, heq]
      · simp only [List.flatten_cons, List.append_assoc, hflat, List.take_append_drop]
      · intro f hf
        rcases List.mem_cons.mp hf with hf | hf
        · subst hf
          simp [List.length_take, Nat.min_eq_left hcond]
        · exact hlen f hf
    · refine ⟨[], acc, ?_, rfl, by simp, Nat.lt_of_not_le hcond⟩
      simp [chunkWhileFuel, hcond]

/-- For a positive frame size the fragment loop terminates, emits only
full frames, leaves a short remainder, and preserves all bytes in
order. -/
theorem chunkOuter_spec (F : Nat) (hF : 1 ≤ F) :
    ∀ frags acc, acc.length < F →
      ∃ frames rest, chunkOuter F frags acc = some (frames, rest) ∧
        frames.flatten ++ rest = acc ++ frags.flatten ∧
        (∀ f ∈ frames, f.length = F) ∧
        rest.length < F := by
  intro frags
  induction frags with
  | nil =>
    intro acc hacc
    exact ⟨[], acc, rfl, by simp, by simp, hacc⟩
  | cons frag frags ih =>
    intro acc hacc
    obtain ⟨frames, rest, heq, hflat, hlen, hrest⟩ :=
      chunkWhileFuel_spec F hF (acc ++ frag).length (acc ++ frag) (Nat.le_refl _)
    obtain ⟨frames', restFin, heq', hflat', hlen', hrest'⟩ := ih rest hrest
    refine ⟨frames ++ frames', restFin, ?_, ?_, ?_, hrest'⟩
    · simp only [chunkOuter, heq, heq']
    · calc (frames ++ frames').flatten ++ restFin
          = frames.flatten ++ (frames'.flatten ++ restFin) := by
            simp [List.flatten_append, List.append_assoc]
        _ = frames.flatten ++ (rest ++ frags.flatten) := by rw [hflat']
        _ = (frames.flatten ++ rest) ++ frags.flatten := by simp [List.append_assoc]
        _ = (acc ++ frag) ++ frags.flatten := by rw [hflat]
        _ = acc ++ (frag :: frags).flatten := by simp [List.append_assoc]
    · intro f hf
      rcases List.mem_append.mp hf with hf | hf
      · exact hlen f hf
      · exact hlen' f hf

/-- C1: For every finite sequence of byte fragments and every frame size
`F > 0`, `chunkStream` terminates and the concatenation of the emitted
frames equals the concatenation of the input fragments, byte-for-byte
and order-preserved — in particular also when `F` exceeds the total
input length (single short frame) and when `F` divides the total length
(no short final frame), both instances of this universal statement. -/
theorem chunkStream_roundtrip (F : Nat) (frags : List (List Nat)) (hF : 1 ≤ F) :
    ∃ out, chunkStream F frags = some out ∧ out.flatten = frags.flatten := by
  obtain ⟨frames, rest, heq, hflat, _, _⟩ :=
    chunkOuter_spec F hF frags [] (Nat.lt_of_lt_of_le Nat.zero_lt_one hF)
  by_cases hrest : 0 < rest.length
  · refine ⟨frames ++ [rest], ?_, ?_⟩
    · simp only [chunkStream, heq, if_pos hrest]
    · simpa [List.flatten_append] using hflat
  · have hnil : rest = [] := List.eq_nil_of_length_eq_zero (by omega)
    subst hnil
    refine ⟨frames, ?_, ?_⟩
    · simp only [chunkStream, heq, if_neg hrest]
    · simpa using hflat

/-- Witness for C1 at `F = 3`, fragments `[[1,2],[3,4,5,6,7]]`. -/
theorem chunkStream_roundtrip_witness :
    1 ≤ 3 ∧ ∃ out, chunkStream 3 [[1, 2], [3, 4, 5, 6, 7]] = some out ∧
      out.flatten = [[1, 2], [3, 4, 5, 6, 7]].flatten :=
  ⟨by decide, chunkStream_roundtrip 3 [[1, 2], [3, 4, 5, 6, 7]] (by decide)⟩

/-- C2: For every finite fragment sequence and frame size `F > 0`,
`chunkStream` terminates; every emitted frame except possibly the last
has length exactly `F`; the last emitted frame has length strictly
greater than `0` and at most `F`; and an empty input sequence yields
zero frames. -/
theorem chunkStream_frame_sizes (F : Nat) (frags : List (List Nat)) (hF : 1 ≤ F) :
    ∃ out, chunkStream F frags = some out ∧
      (∀ f ∈ out.dropLast, f.length = F) ∧
      (∀ h : out ≠ [], 0 < (out.getLast h).length ∧ (out.getLast h).length ≤ F) ∧
      (frags = [] → out = []) := by
  obtain ⟨frames, rest, heq, hflat, hlen, hrest⟩ :=
    chunkOuter_spec F hF frags [] (Nat.lt_of_lt_of_le Nat.zero_lt_one hF)
  by_cases hr : 0 < rest.length
  · refine ⟨frames ++ [rest], ?_, ?_, ?_, ?_⟩
    · simp only [chunkStream, heq, if_pos hr]
    · intro f hf
      rw [List.dropLast_concat] at hf
      exact hlen f hf
    · intro h
      rw [List.getLast_append]
      exact ⟨hr, Nat.le_of_lt hrest⟩
    · intro hnil
      subst hnil
      have : chunkOuter F ([] : List (List Nat)) [] = some ([], []) := rfl
      rw [this] at heq
      injection heq with heq'
      injection heq' with h1 h2
      subst h2
      simp at hr
  · have hnil : rest = [] := List.eq_nil_of_length_eq_zero (by omega)
    subst hnil
    refine ⟨frames, ?_, ?_, ?_, ?_⟩
    · simp only [chunkStream, heq, if_neg hr]
    · intro f hf
      exact hlen f (List.dropLast_subset _ hf)
    · intro h
      have hm := List.getLast_mem h
      have := hlen _ hm
      omega
    · intro hnil
      subst hnil
      have : chunkOuter F ([] : List (List Nat)) [] = some ([], []) := rfl
      rw [this] at heq
      injection heq with heq'
      injection heq' with h1 h2
      exact h1.symm

/-- Witness for C2 at `F = 3`, fragments `[[1,2,3,4]]`. -/
theorem chunkStream_frame_sizes_witness :
    1 ≤ 3 ∧ ∃ out, chunkStream 3 [[1, 2, 3, 4]] = some out ∧
      (∀ f ∈ out.dropLast, f.length = 3) ∧
      (∀ h : out ≠ [], 0 < (out.getLast h).length ∧ (out.getLast h).length ≤ 3) ∧
      (([[1, 2, 3, 4]] : List (List Nat)) = [] → out = []) :=
  ⟨by decide, chunkStream_frame_sizes 3 [[1, 2, 3, 4]] (by decide)⟩

/-- C7 (the code violates the claim): `chunkStream` performs no eager
validation of the frame size.  With `chunkSize = 0` and any non-empty
fragment, the inner `while (pendingBytes >= chunkSize)` loop never
exits — each iteration yields an empty slice and puts the whole merged
buffer back as the remainder — so the source generator silently fails
to terminate instead of rejecting the call.  In the embedding: no
amount of fuel completes the inner loop on a single 1-byte fragment,
and the whole chunking diverges (`none`). -/
theorem chunkStream_zero_frame_size_diverges :
    (∀ fuel, chunkWhileFuel 0 fuel [42] = none) ∧
      chunkStream 0 [[42]] = none := by
  constructor
  · intro fuel
    induction fuel with
    | zero => rfl
    | succ fuel ih => simp [chunkWhileFuel, ih]
  · rfl

/-! ## Frame Sender (`sendStreamChunks`, src/grpc/client.ts)

`sendStreamChunks(call, stream, filename)` iterates the Chunker output
holding back one chunk (`prevChunk`): on each new chunk the held one is
written with `isLast: false`, labelled with the filename only when it is
the very first (`isFirst`); at end of input the held chunk is written
with `isLast: true`.  The embedding collects the frames written to the
call in order. -/

/-- One protocol frame written to the gRPC call by the Frame Sender:
`{ chunk, filename, isLast }`. -/
structure UploadFrame where
  chunk : List Nat
  filename : String
  isLast : Bool
  deriving DecidableEq, Repr

/-- The `for await` loop of `sendStreamChunks`, with the held-back chunk
(`prevChunk`) and the `isFirst` flag as explicit state, followed by the
final write of the held chunk with `isLast: true`. -/
def sendLoop (filename : String) : Option (List Nat) → Bool → List (List Nat) → List UploadFrame
  | none, _, [] => []
  | some c, isFirst, [] => [⟨c, if isFirst then filename else "", true⟩]
  | none, isFirst, chunk :: rest => sendLoop filename (some chunk) isFirst rest
  | some c, isFirst, chunk :: rest =>
    ⟨c, if isFirst then filename else "", false⟩ :: sendLoop filename (some chunk) false rest

/-- `sendStreamChunks` as a function from the chunk sequence produced by
the Chunker to the frames written on the call, in write order. -/
def sendStreamChunks (filename : String) (chunks : List (List Nat)) : List UploadFrame :=
  sendLoop filename none true chunks

/-- The whole per-file pipeline of `scanStream` / `scanMultiple`
submission: chunk the file's fragments at the fixed 64 KiB `CHUNK_SIZE`
and run the Frame Sender over the resulting chunks (`none` is
unreachable here since the chunk size is positive). -/
def sendFile (filename : String) (frags : List (List Nat)) : Option (List UploadFrame) :=
  (chunkStream (64 * 1024) frags).map (sendStreamChunks filename)

/-- Closed form of the Frame Sender output, written after the spec's
description of the defer-by-one labelling (§4.2): frame `i` carries
chunk `i`, the label is the filename exactly on frame 0 (empty on the
recursive tail), and `isLast` holds exactly on the final frame.  Proved
below to coincide with the source-derived `sendStreamChunks`. -/
def framesSpec (filename : String) : List (List Nat) → List UploadFrame
  | [] => []
  | c :: cs => ⟨c, filename, cs.isEmpty⟩ :: framesSpec "" cs

/-- Unrolling `sendLoop` with a held chunk: the held chunk is emitted
with the first-frame label rule and terminal flag iff nothing follows,
and the remaining frames are the closed form with an empty label. -/
theorem sendLoop_some_eq (filename : String) :
    ∀ chunks c isFirst,
      sendLoop filename (some c) isFirst chunks =
        ⟨c, if isFirst then filename else "", chunks.isEmpty⟩ :: framesSpec "" chunks := by
  intro chunks
  induction chunks with
  | nil => intro c isFirst; rfl
  | cons chunk rest ih =>
    intro c isFirst
    show (⟨c, if isFirst then filename else "", false⟩ : UploadFrame) ::
        sendLoop filename (some chunk) false rest = _
    rw [ih chunk false]
    rfl

/-- The source Frame Sender agrees with the closed form. -/
theorem sendStreamChunks_eq_framesSpec (filename : String) (chunks : List (List Nat)) :
    sendStreamChunks filename chunks = framesSpec filename chunks := by
  cases chunks with
  | nil => rfl
  | cons chunk rest =>
    show sendLoop filename (some chunk) true rest = _
    rw [sendLoop_some_eq filename rest chunk true]
    rfl

/-- The closed form emits one frame per chunk. -/
theorem framesSpec_length (filename : String) :
    ∀ chunks, (framesSpec filename chunks).length = chunks.length := by
  intro chunks
  induction chunks generalizing filename with
  | nil => rfl
  | cons chunk rest ih => simp [framesSpec, ih ""]

/-- Every frame in the empty-label closed form has an empty label. -/
theorem framesSpec_empty_label :
    ∀ chunks, ∀ f ∈ framesSpec "" chunks, f.filename = "" := by
  intro chunks
  induction chunks with
  | nil => intro f hf; simp [framesSpec] at hf
  | cons chunk rest ih =>
    intro f hf
    rcases List.mem_cons.mp hf with hf | hf
    · subst hf; rfl
    · exact ih f hf

/-- In the closed form, `isLast` is false on all frames but the last. -/
theorem framesSpec_isLast (filename : String) :
    ∀ chunks, ∀ f ∈ (framesSpec filename chunks).dropLast, f.isLast = false := by
  intro chunks
  induction chunks generalizing filename with
  | nil => intro f hf; simp [framesSpec] at hf
  | cons chunk rest ih =>
    intro f hf
    cases rest with
    | nil => simp [framesSpec] at hf
    | cons c2 cs =>
      rw [show framesSpec filename (chunk :: c2 :: cs) =
            ⟨chunk, filename, false⟩ :: framesSpec "" (c2 :: cs) from rfl,
          List.dropLast_cons_of_ne_nil (by
            have := framesSpec_length "" (c2 :: cs)
            intro hnil
            rw [hnil] at this
            simp at this)] at hf
      rcases List.mem_cons.mp hf with hf | hf
      · subst hf; rfl
      · exact ih "" f hf

/-- In the closed form, the final frame has `isLast = true`. -/
theorem framesSpec_getLast (filename : String) :
    ∀ chunks (h : framesSpec filename chunks ≠ []),
      ((framesSpec filename chunks).getLast h).isLast = true := by
  intro chunks
  induction chunks generalizing filename with
  | nil => intro h; simp [framesSpec] at h
  | cons chunk rest ih =>
    intro h
    cases rest with
    | nil => rfl
    | cons c2 cs =>
      have hne : framesSpec "" (c2 :: cs) ≠ [] := by
        have := framesSpec_length "" (c2 :: cs)
        intro hnil
        rw [hnil] at this
        simp at this
      have hgl : (framesSpec filename (chunk :: c2 :: cs)).getLast h =
          (framesSpec "" (c2 :: cs)).getLast hne := List.getLast_cons hne
      rw [hgl]
      exact ih "" hne

/-- In the closed form on a non-empty chunk list, exactly one frame has
`isLast = true`. -/
theorem framesSpec_countP_isLast (filename : String) :
    ∀ chunks, chunks ≠ [] →
      (framesSpec filename chunks).countP (fun f => f.isLast) = 1 := by
  intro chunks
  induction chunks generalizing filename with
  | nil => intro h; exact absurd rfl h
  | cons chunk rest ih =>
    intro _
    cases rest with
    | nil => rfl
    | cons c2 cs =>
      show List.countP _ (⟨chunk, filename, false⟩ :: framesSpec "" (c2 :: cs)) = 1
      rw [List.countP_cons_of_neg _ _ (by simp), ih "" (by simp)]

/-- C3: For every file whose byte source yields at least one chunk and
whose supplied filename is non-empty, the Frame Sender emits one frame
per chunk; exactly one frame carries a non-empty filename label, namely
the first; exactly one frame carries `isLast = true`, namely the last;
and for a single-chunk file these coincide on the same (sole) frame. -/
theorem sendStreamChunks_labels (filename : String) (chunks : List (List Nat))
    (hc : chunks ≠ []) (hfn : filename ≠ "") :
    (sendStreamChunks filename chunks).length = chunks.length ∧
      (sendStreamChunks filename chunks).countP (fun f => !(f.filename == "")) = 1 ∧
      (sendStreamChunks filename chunks).countP (fun f => f.isLast) = 1 ∧
      (∃ h : sendStreamChunks filename chunks ≠ [],
        ((sendStreamChunks filename chunks).head h).filename = filename ∧
          ((sendStreamChunks filename chunks).getLast h).isLast = true) ∧
      (∀ f ∈ (sendStreamChunks filename chunks).tail, f.filename = "") ∧
      (∀ f ∈ (sendStreamChunks filename chunks).dropLast, f.isLast = false) ∧
      (chunks.length = 1 → (sendStreamChunks filename chunks).length = 1) := by
  rw [sendStreamChunks_eq_framesSpec]
  obtain ⟨chunk, rest, rfl⟩ := List.exists_cons_of_ne_nil hc
  have hlen := framesSpec_length filename (chunk :: rest)
  have hne : framesSpec filename (chunk :: rest) ≠ [] := by
    intro hnil
    rw [hnil] at hlen
    simp at hlen
  refine ⟨hlen, ?_, framesSpec_countP_isLast filename _ (by simp),
    ⟨hne, ?_, framesSpec_getLast filename _ hne⟩, ?_, framesSpec_isLast filename _, ?_⟩
  · show List.countP _ (⟨chunk, filename, rest.isEmpty⟩ :: framesSpec "" rest) = 1
    rw [List.countP_cons_of_pos _ _ (by simpa using hfn)]
    have : (framesSpec "" rest).countP (fun f => !(f.filename == "")) = 0 := by
      rw [List.countP_eq_zero]
      intro f hf
      simpa using framesSpec_empty_label rest f hf
    rw [this]
  · rfl
  · intro f hf
    exact framesSpec_empty_label rest f hf
  · intro h1
    omega

/-- Witness for C3 at filename `"a.txt"`, chunks `[[1],[2]]`. -/
theorem sendStreamChunks_labels_witness :
    (sendStreamChunks "a.txt" [[1], [2]]).length = ([[1], [2]] : List (List Nat)).length ∧
      (sendStreamChunks "a.txt" [[1], [2]]).countP (fun f => !(f.filename == "")) = 1 ∧
      (sendStreamChunks "a.txt" [[1], [2]]).countP (fun f => f.isLast) = 1 ∧
      (∃ h : sendStreamChunks "a.txt" [[1], [2]] ≠ [],
        ((sendStreamChunks "a.txt" [[1], [2]]).head h).filename = "a.txt" ∧
          ((sendStreamChunks "a.txt" [[1], [2]]).getLast h).isLast = true) ∧
      (∀ f ∈ (sendStreamChunks "a.txt" [[1], [2]]).tail, f.filename = "") ∧
      (∀ f ∈ (sendStreamChunks "a.txt" [[1], [2]]).dropLast, f.isLast = false) ∧
      (([[1], [2]] : List (List Nat)).length = 1 →
        (sendStreamChunks "a.txt" [[1], [2]]).length = 1) :=
  sendStreamChunks_labels "a.txt" [[1], [2]] (by decide) (by decide)

/-- C9: a file whose byte source yields zero bytes produces no frames at
all from the Frame Sender — not even a terminal frame: the Chunker
yields zero chunks for it, so `prevChunk` is never filled and nothing is
written to the call. -/
theorem sendFile_empty (filename : String) (frags : List (List Nat))
    (hz : frags.flatten = []) : sendFile filename frags = some [] := by
  obtain ⟨frames, rest, heq, hflat, hlen, _⟩ :=
    chunkOuter_spec (64 * 1024) (by omega) frags [] (by decide)
  rw [hz] at hflat
  rw [List.append_nil] at hflat
  obtain ⟨hfr, hrest⟩ : frames.flatten = [] ∧ rest = [] := List.append_eq_nil.mp hflat
  have hframes : frames = [] := by
    cases frames with
    | nil => rfl
    | cons f fr =>
      rw [List.flatten_cons] at hfr
      have hf0 : f = [] := (List.append_eq_nil.mp hfr).1
      have hl := hlen f (List.mem_cons_self _ _)
      rw [hf0] at hl
      simp at hl
  subst hframes
  subst hrest
  unfold sendFile chunkStream
  rw [heq]
  rfl

/-- Witness for C9 at filename `"empty.bin"`, fragments `[[], []]`
(a source that fires data events carrying empty buffers). -/
theorem sendFile_empty_witness : sendFile "empty.bin" [[], []] = some [] :=
  sendFile_empty "empty.bin" [[], []] (by decide)

/-! ## Result and error data model (src/types.ts, src/errors.ts)

`ScanResult` as consumed by both clients; the error-class hierarchy is
flattened into one inductive carrying the same information (`kind`,
`message`, `statusCode`).  `scanTime` (`number` in TypeScript) is
modelled as `Nat`; the JavaScript `x || d` defaulting on a string is
`if x == "" then d else x` and on a number with default `0` is the
identity. -/

/-- `ScanResult` (src/types.ts). -/
structure ScanResult where
  status : String
  message : String
  scanTime : Nat
  filename : Option String
  isInfected : Bool
  deriving DecidableEq

/-- The raw gRPC `ScanResponse` message (`GrpcScanResponse` in
src/grpc/client.ts). -/
structure GrpcScanResponse where
  status : String
  message : String
  scan_time : Nat
  filename : String
  deriving DecidableEq

/-- `toScanResult` (src/grpc/client.ts): defaulting of falsy fields and
recomputation of `isInfected` from the defaulted status. -/
def toScanResult (r : GrpcScanResponse) : ScanResult :=
  let status := if r.status == "" then "ERROR" else r.status
  { status := status
    message := r.message
    scanTime := r.scan_time
    filename := if r.filename == "" then none else some r.filename
    isInfected := status == "FOUND" }

/-- A gRPC `ServiceError` as seen by `mapGrpcError`: numeric status
code, `details` and `message` strings. -/
structure GrpcServiceError where
  code : Nat
  details : String
  message : String
  deriving DecidableEq

/-- The error taxonomy of src/errors.ts, flattened: one constructor per
error class (`plain` stands for a non-ClamAV `Error`, as produced by the
submission path of `scanMultiple` for arbitrary thrown values). -/
inductive ClamErr
  | validation (message : String) (statusCode : Nat)
  | service (message : String) (statusCode : Nat)
  | timeout (message : String) (statusCode : Nat)
  | connection (message : String)
  | cancelled (message : String) (statusCode : Nat)
  | grpcError (message : String) (statusCode : Nat)
  | plain (message : String)
  deriving DecidableEq

/-- `mapGrpcError` (src/grpc/client.ts).  The gRPC status codes in the
switch: INVALID_ARGUMENT = 3, INTERNAL = 13, DEADLINE_EXCEEDED = 4,
UNAVAILABLE = 14, CANCELLED = 1. -/
def mapGrpcError (e : GrpcServiceError) : ClamErr :=
  let message := if e.details == "" then e.message else e.details
  if e.code == 3 then ClamErr.validation message e.code
  else if e.code == 13 then ClamErr.service message e.code
  else if e.code == 4 then ClamErr.timeout message e.code
  else if e.code == 14 then ClamErr.connection message
  else if e.code == 1 then ClamErr.cancelled message e.code
  else ClamErr.grpcError message e.code

/-! ## gRPC multi-file driver (`scanMultiple`, src/grpc/client.ts)

The driver shares one mutable `state` record between three event
handlers (`data`, `error`, `end`), an async submission task, and the
consuming generator loop.  The embedding models one execution as a
sequence of *batches* of handler events: while the consumer is
suspended awaiting its single-slot wake-up, any number of handlers may
fire; the consumer then resumes and re-checks the state.  Singleton
batches model the consumer resuming after every single event; larger
batches model several handlers firing before the consumer's turn.  Both
interleavings are possible under the event loop, so theorems quantify
over all batchings. -/

/-- A handler invocation on the shared `state` of `scanMultiple`:
a `data` result event, an `error` event, the `end` event, a failure of
the submission task (its `catch` block), or the submission task
finishing normally (`call.end()`, which touches no state). -/
inductive MEvent
  | data (response : GrpcScanResponse)
  | errorEvt (e : GrpcServiceError)
  | endEvt
  | submitFail (e : ClamErr)
  | submitDone
  deriving DecidableEq

/-- The shared `state` record of `scanMultiple`: buffered results, the
`done` flag, and the recorded failure. -/
structure MState where
  results : List ScanResult
  done : Bool
  error : Option ClamErr
  deriving DecidableEq

/-- The initial state of one `scanMultiple` execution. -/
def mInit : MState := ⟨[], false, none⟩

/-- Effect of one handler invocation on the shared state, exactly as the
handlers write it: `data` pushes `toScanResult(response)`; `error` sets
`state.error = mapGrpcError(error)` (unconditionally — no first-writer
guard) and `state.done = true`; `end` sets `done`; the submission
`catch` sets `state.error = err` (unconditionally) and `done`. -/
def mStep (s : MState) : MEvent → MState
  | .data response => { s with results := s.results ++ [toScanResult response] }
  | .errorEvt e => { s with error := some (mapGrpcError e), done := true }
  | .endEvt => { s with done := true }
  | .submitFail e => { s with error := some e, done := true }
  | .submitDone => s

/-- All handler invocations of one batch, in order. -/
def applyBatch (s : MState) (b : List MEvent) : MState := b.foldl mStep s

/-- The consuming generator loop of `scanMultiple`, over a batched event
trace.  Each round the loop first yields every buffered result not yet
delivered (`if (yielded < state.results.length) { yield ...; continue }`,
summarised as `results.drop yielded`), then, if `state.done`, raises the
recorded failure or ends (`if (state.error) throw state.error; return`),
and otherwise suspends on `state.resolveNext` until the next batch of
handlers has fired.  The returned pair is (results yielded in order,
failure raised after them, if any); an exhausted trace with the
exchange still open means the consumer stays suspended, raising
nothing. -/
def mConsume : MState → Nat → List (List MEvent) → List ScanResult × Option ClamErr
  | s, yielded, [] => (s.results.drop yielded, if s.done then s.error else none)
  | s, yielded, b :: rest =>
    if s.done then (s.results.drop yielded, s.error)
    else
      let flushed := s.results.drop yielded
      let next := mConsume (applyBatch s b) s.results.length rest
      (flushed ++ next.1, next.2)

/-- Events that leave `done` and `error` untouched: result events and
the normal completion of the submission task. -/
def isBenign : MEvent → Bool
  | .data _ => true
  | .submitDone => true
  | _ => false

/-- Events that set `done`: the `error` and `end` handlers and the
submission `catch`. -/
def isTerminal : MEvent → Bool
  | .errorEvt _ => true
  | .endEvt => true
  | .submitFail _ => true
  | _ => false

/-- The result payloads of the `data` events of a trace, in order. -/
def dataOf : List MEvent → List GrpcScanResponse :=
  List.filterMap fun e => match e with
    | .data r => some r
    | _ => none

/-- The failure a terminal event records into a state whose `error` slot
is still empty. -/
def termErr : MEvent → Option ClamErr
  | .errorEvt e => some (mapGrpcError e)
  | .submitFail e => some e
  | _ => none

/-- Draining: delivering the not-yet-yielded buffered results first
commutes with the rest of the run. -/
theorem mConsume_drop (s : MState) (yielded : Nat) (batches : List (List MEvent)) :
    mConsume s yielded batches =
      (s.results.drop yielded ++ (mConsume s s.results.length batches).1,
        (mConsume s s.results.length batches).2) := by
  cases batches with
  | nil => simp [mConsume, List.drop_length]
  | cons b rest =>
    by_cases hd : s.done
    · simp [mConsume, hd, List.drop_length]
    · simp [mConsume, hd, List.drop_length]

/-- Once `done` is set, the consumer yields the remaining buffer and
terminates with the recorded failure, whatever events are still in
flight. -/
theorem mConsume_done (s : MState) (yielded : Nat) (batches : List (List MEvent))
    (hd : s.done = true) :
    mConsume s yielded batches = (s.results.drop yielded, s.error) := by
  cases batches with
  | nil => simp [mConsume, hd]
  | cons b rest => simp [mConsume, hd]

/-- A batch of benign events only appends the mapped results. -/
theorem applyBatch_benign (b : List MEvent) :
    ∀ s, (∀ e ∈ b, isBenign e = true) →
      applyBatch s b = ⟨s.results ++ (dataOf b).map toScanResult, s.done, s.error⟩ := by
  induction b with
  | nil =>
    intro s _
    show s = _
    simp [dataOf]
  | cons e b ih =>
    intro s hb
    have hbtail : ∀ e' ∈ b, isBenign e' = true := fun e' he' => hb e' (List.mem_cons_of_mem _ he')
    cases e with
    | data r =>
      show applyBatch (mStep s (.data r)) b = _
      rw [ih _ hbtail]
      simp [mStep, dataOf, List.filterMap_cons]
    | submitDone =>
      show applyBatch (mStep s .submitDone) b = _
      rw [ih _ hbtail]
      simp [mStep, dataOf, List.filterMap_cons]
    | errorEvt e => simpa [isBenign] using hb _ (List.mem_cons_self _ _)
    | endEvt => simpa [isBenign] using hb _ (List.mem_cons_self _ _)
    | submitFail e => simpa [isBenign] using hb _ (List.mem_cons_self _ _)

/-- A terminal event on a clean state sets `done` and records exactly
`termErr`. -/
theorem mStep_terminal (s : MState) (t : MEvent) (ht : isTerminal t = true)
    (he : s.error = none) :
    mStep s t = ⟨s.results, true, termErr t⟩ := by
  cases t with
  | errorEvt e => simp [mStep, termErr]
  | endEvt => simp [mStep, termErr, he]
  | submitFail e => simp [mStep, termErr]
  | data r => simp [isTerminal] at ht
  | submitDone => simp [isTerminal] at ht

/-- Workhorse: over any batching of a trace consisting of benign events
followed by one terminal event, the consumer yields exactly the mapped
`data` payloads, in trace order, and then raises `termErr` of the
terminal event. -/
theorem mConsume_run :
    ∀ (batches : List (List MEvent)) (pre : List MEvent) (t : MEvent) (s : MState),
      s.done = false → s.error = none →
      (∀ e ∈ pre, isBenign e = true) → isTerminal t = true →
      batches.flatten = pre ++ [t] →
      mConsume s s.results.length batches =
        ((dataOf pre).map toScanResult, termErr t) := by
  intro batches
  induction batches with
  | nil =>
    intro pre t s _ _ _ _ hf
    simp at hf
  | cons b rest ih =>
    intro pre t s hd he hb ht hf
    rw [List.flatten_cons] at hf
    have hstep : mConsume s s.results.length (b :: rest) =
        mConsume (applyBatch s b) s.results.length rest := by
      simp [mConsume, hd, List.drop_length]
    rw [hstep]
    rcases le_or_lt b.length pre.length with hble | hlt
    · -- the whole batch is benign
      have hbe : b = pre.take b.length := by
        have h1 : (b ++ rest.flatten).take b.length = b := List.take_left b rest.flatten
        rw [hf, List.take_append_of_le_length hble] at h1
        exact h1.symm
      have hre : rest.flatten = pre.drop b.length ++ [t] := by
        have h1 : (b ++ rest.flatten).drop b.length = rest.flatten := List.drop_left b rest.flatten
        rw [hf, List.drop_append_of_le_length hble] at h1
        exact h1.symm
      have hbben : ∀ e ∈ b, isBenign e = true := by
        intro e hmem
        rw [hbe] at hmem
        exact hb e (List.take_subset _ _ hmem)
      have hsplit : dataOf b ++ dataOf (pre.drop b.length) = dataOf pre := by
        have h2 : dataOf (pre.take b.length ++ pre.drop b.length) =
            dataOf (pre.take b.length) ++ dataOf (pre.drop b.length) :=
          List.filterMap_append _ _ _
        rw [List.take_append_drop] at h2
        rw [h2, ← hbe]
      have hinner := ih (pre.drop b.length) t
        ⟨s.results ++ (dataOf b).map toScanResult, s.done, s.error⟩
        hd he (fun e hmem => hb e (List.drop_subset _ _ hmem)) ht hre
      rw [applyBatch_benign b s hbben, mConsume_drop]
      rw [show (⟨s.results ++ (dataOf b).map toScanResult, s.done, s.error⟩ : MState).results =
            s.results ++ (dataOf b).map toScanResult from rfl] at hinner ⊢
      rw [hinner, List.drop_left, ← List.map_append, hsplit]
    · -- the batch contains the terminal event
      have hlenf : b.length + rest.flatten.length = pre.length + 1 := by
        have := congrArg List.length hf
        simpa [List.length_append] using this
      have hrf : rest.flatten = [] := by
        have : rest.flatten.length = 0 := by omega
        exact List.eq_nil_of_length_eq_zero this
      have hb2 : b = pre ++ [t] := by
        rw [hrf, List.append_nil] at hf
        exact hf
      have happ : applyBatch s b = ⟨s.results ++ (dataOf pre).map toScanResult, true, termErr t⟩ := by
        rw [hb2]
        show (pre ++ [t]).foldl mStep s = _
        rw [List.foldl_append]
        show mStep (applyBatch s pre) t = _
        rw [applyBatch_benign pre s hb]
        rw [mStep_terminal _ t ht (by simpa using he)]
      rw [happ, mConsume_done _ _ _ rfl]
      simp [List.drop_left]

/-- Payloads of a pure-`data` trace. -/
theorem dataOf_map_data (rs : List GrpcScanResponse) : dataOf (rs.map MEvent.data) = rs := by
  induction rs with
  | nil => rfl
  | cons r rs ih => simp [dataOf, List.filterMap_cons] at ih ⊢; exact ih

/-- A pure-`data` trace is benign. -/
theorem benign_map_data (rs : List GrpcScanResponse) :
    ∀ e ∈ rs.map MEvent.data, isBenign e = true := by
  intro e hmem
  obtain ⟨r, _, rfl⟩ := List.mem_map.mp hmem
  rfl

/-- C8: over every batching of a normal execution — the remote emits the
result events `rs` in some order and then ends the exchange — the
consumer of the gRPC `scanMultiple` driver yields exactly the mapped
results in remote-emission order and raises no failure.  File-submission
order does not occur in the statement at all: delivery order is fixed by
the order of the `data` events alone. -/
theorem grpc_scanMultiple_emission_order (batches : List (List MEvent))
    (rs : List GrpcScanResponse)
    (hf : batches.flatten = rs.map MEvent.data ++ [MEvent.endEvt]) :
    mConsume mInit 0 batches = (rs.map toScanResult, none) := by
  have h := mConsume_run batches (rs.map MEvent.data) MEvent.endEvt mInit rfl rfl
    (benign_map_data rs) rfl hf
  rw [dataOf_map_data] at h
  exact h

/-- Witness for C8: two results, delivered across two wake-ups. -/
theorem grpc_scanMultiple_emission_order_witness :
    mConsume mInit 0
        [[MEvent.data ⟨"OK", "", 1, "a.txt"⟩],
         [MEvent.data ⟨"FOUND", "Eicar-Test-Signature", 2, "b.txt"⟩, MEvent.endEvt]] =
      ([toScanResult ⟨"OK", "", 1, "a.txt"⟩,
        toScanResult ⟨"FOUND", "Eicar-Test-Signature", 2, "b.txt"⟩], none) :=
  grpc_scanMultiple_emission_order _
    [⟨"OK", "", 1, "a.txt"⟩, ⟨"FOUND", "Eicar-Test-Signature", 2, "b.txt"⟩] rfl

/-- C4: over every batching of an execution in which a failure is
recorded — by the submission `catch` or by the `error` handler — after
the result events `rs`, every outcome buffered when the failure fires is
still yielded to the consumer, in order, before the failure is raised;
none is discarded.  This covers in particular the batching in which the
failure fires while all of `rs` is still sitting undelivered in the
buffer. -/
theorem grpc_scanMultiple_drain_before_failure (batches : List (List MEvent))
    (rs : List GrpcScanResponse) (t : MEvent)
    (hfail : (∃ e, t = MEvent.submitFail e) ∨ (∃ e, t = MEvent.errorEvt e))
    (hf : batches.flatten = rs.map MEvent.data ++ [t]) :
    mConsume mInit 0 batches = (rs.map toScanResult, termErr t) ∧
      (termErr t).isSome = true := by
  have ht : isTerminal t = true := by
    rcases hfail with ⟨e, rfl⟩ | ⟨e, rfl⟩ <;> rfl
  have h := mConsume_run batches (rs.map MEvent.data) t mInit rfl rfl
    (benign_map_data rs) ht hf
  rw [dataOf_map_data] at h
  refine ⟨h, ?_⟩
  rcases hfail with ⟨e, rfl⟩ | ⟨e, rfl⟩ <;> rfl

/-- Witness for C4: a submission failure fires in the same wake-up slot
while two results are still buffered; both are yielded, then the failure
is raised. -/
theorem grpc_scanMultiple_drain_before_failure_witness :
    mConsume mInit 0
        [[MEvent.data ⟨"OK", "", 1, "a.txt"⟩, MEvent.data ⟨"OK", "", 1, "b.txt"⟩,
          MEvent.submitFail (ClamErr.plain "read failed")]] =
      ([toScanResult ⟨"OK", "", 1, "a.txt"⟩, toScanResult ⟨"OK", "", 1, "b.txt"⟩],
        termErr (MEvent.submitFail (ClamErr.plain "read failed"))) ∧
      (termErr (MEvent.submitFail (ClamErr.plain "read failed"))).isSome = true :=
  grpc_scanMultiple_drain_before_failure _
    [⟨"OK", "", 1, "a.txt"⟩, ⟨"OK", "", 1, "b.txt"⟩]
    (MEvent.submitFail (ClamErr.plain "read failed")) (Or.inl ⟨_, rfl⟩) rfl

/-- `dataOf` distributes over trace concatenation. -/
theorem dataOf_append (l1 l2 : List MEvent) : dataOf (l1 ++ l2) = dataOf l1 ++ dataOf l2 :=
  List.filterMap_append _ _ _

/-- Running the consumer across a benign trace followed by arbitrary
further batches: the benign part contributes exactly its mapped results,
and the run continues from the enlarged, still-clean state. -/
theorem mConsume_benign_append :
    ∀ (batches1 : List (List MEvent)) (s : MState) (batches2 : List (List MEvent)),
      s.done = false → s.error = none →
      (∀ e ∈ batches1.flatten, isBenign e = true) →
      mConsume s s.results.length (batches1 ++ batches2) =
        ((dataOf batches1.flatten).map toScanResult ++
            (mConsume ⟨s.results ++ (dataOf batches1.flatten).map toScanResult, false, none⟩
              (s.results ++ (dataOf batches1.flatten).map toScanResult).length batches2).1,
          (mConsume ⟨s.results ++ (dataOf batches1.flatten).map toScanResult, false, none⟩
            (s.results ++ (dataOf batches1.flatten).map toScanResult).length batches2).2) := by
  intro batches1
  induction batches1 with
  | nil =>
    intro s batches2 hd he _
    obtain ⟨r, d, er⟩ := s
    simp only at hd he
    subst hd
    subst he
    simp [dataOf]
  | cons b rest1 ih =>
    intro s batches2 hd he hben
    have hbben : ∀ e ∈ b, isBenign e = true := fun e he' => hben e (by simp [he'])
    have hrben : ∀ e ∈ rest1.flatten, isBenign e = true := fun e he' => hben e (by simp [he'])
    have hstep : mConsume s s.results.length ((b :: rest1) ++ batches2) =
        mConsume (applyBatch s b) s.results.length (rest1 ++ batches2) := by
      simp [mConsume, hd, List.drop_length]
    rw [hstep, applyBatch_benign b s hbben, mConsume_drop]
    rw [show (⟨s.results ++ (dataOf b).map toScanResult, s.done, s.error⟩ : MState) =
          ⟨s.results ++ (dataOf b).map toScanResult, false, none⟩ from by rw [hd, he]]
    rw [ih ⟨s.results ++ (dataOf b).map toScanResult, false, none⟩ batches2 rfl rfl hrben]
    simp [List.flatten_cons, dataOf_append, List.map_append, List.append_assoc, List.drop_left]

/-- C5 counterexample: the claim that the first recorded failure is the
one raised is false.  The submission `catch` records a plain
`Error("read failed")` first, and the `CANCELLED` error event triggered
by the accompanying `call.cancel()` fires before the consumer resumes;
because neither `state.error` assignment is guarded, the second write
overwrites the first, and the consumer raises the CANCELLED error, not
the first-recorded one. -/
theorem grpc_scanMultiple_first_failure_overwritten :
    mConsume mInit 0
        [[MEvent.submitFail (ClamErr.plain "read failed"),
          MEvent.errorEvt ⟨1, "Call cancelled", ""⟩]] =
      ([], some (ClamErr.cancelled "Call cancelled" 1)) ∧
      ClamErr.cancelled "Call cancelled" 1 ≠ ClamErr.plain "read failed" := by
  constructor
  · rfl
  · intro h
    injection h

/-- C5 as amended: at most one failure is retained, but the retention
discipline is last-writer-wins, not first-writer-wins: over every
batching of a trace of result events followed by a submission failure
and an exchange error event landing in the same wake-up slot, the
failure raised to the consumer is the one recorded last (the mapped
error event), and every already-buffered outcome is still yielded,
uncorrupted and in order, before it. -/
theorem grpc_scanMultiple_last_failure_wins (dbatches : List (List MEvent))
    (rs : List GrpcScanResponse) (e1 : ClamErr) (e2 : GrpcServiceError)
    (hf : dbatches.flatten = rs.map MEvent.data) :
    mConsume mInit 0 (dbatches ++ [[MEvent.submitFail e1, MEvent.errorEvt e2]]) =
      (rs.map toScanResult, some (mapGrpcError e2)) := by
  have hben : ∀ e ∈ dbatches.flatten, isBenign e = true := by
    rw [hf]
    exact benign_map_data rs
  have h := mConsume_benign_append dbatches mInit
    [[MEvent.submitFail e1, MEvent.errorEvt e2]] rfl rfl hben
  rw [hf, dataOf_map_data] at h
  have hT : mConsume ⟨mInit.results ++ rs.map toScanResult, false, none⟩
      (mInit.results ++ rs.map toScanResult).length
      [[MEvent.submitFail e1, MEvent.errorEvt e2]] = ([], some (mapGrpcError e2)) := by
    simp [mConsume, applyBatch, mStep, List.drop_length]
  rw [hT] at h
  simpa using h

/-- Witness for the amended C5: one buffered result, then both failure
signals in one slot; the result is yielded and the mapped CANCELLED
error — the later signal — is raised. -/
theorem grpc_scanMultiple_last_failure_wins_witness :
    mConsume mInit 0
        ([[MEvent.data ⟨"OK", "", 1, "a.txt"⟩]] ++
          [[MEvent.submitFail (ClamErr.plain "read failed"),
            MEvent.errorEvt ⟨1, "Call cancelled", ""⟩]]) =
      ([toScanResult ⟨"OK", "", 1, "a.txt"⟩],
        some (mapGrpcError ⟨1, "Call cancelled", ""⟩)) :=
  grpc_scanMultiple_last_failure_wins [[MEvent.data ⟨"OK", "", 1, "a.txt"⟩]]
    [⟨"OK", "", 1, "a.txt"⟩] (ClamErr.plain "read failed") ⟨1, "Call cancelled", ""⟩ rfl

/-! ## REST multi-file scan (`scanMultiple`, src/rest/client.ts)

The REST driver maps every file to a `scanFile` promise, awaits
`Promise.allSettled` (which preserves input order and never rejects),
and loops over the settled results, yielding the fulfilled value or a
synthesised ERROR result built from the rejection reason.  The per-file
settlement is the external collaborator here and enters the embedding
as an oracle `FileEntry → SettledResult`; the rejection reason is
carried as its message string (`err instanceof Error ? err.message :
String(err)`). -/

/-- A file entry of `scanMultiple` (src/types.ts): content plus optional
filename. -/
structure FileEntry where
  data : List Nat
  filename : Option String
  deriving DecidableEq

/-- One `Promise.allSettled` slot: fulfilled with a result, or rejected
with a reason message. -/
inductive SettledResult
  | fulfilled (value : ScanResult)
  | rejected (message : String)
  deriving DecidableEq

/-- The `for (const result of results)` loop body of the REST
`scanMultiple`: fulfilled results are yielded as-is, rejections become
`{ status: 'ERROR', message, scanTime: 0, isInfected: false }` (no
filename). -/
def settleLoop : List SettledResult → List ScanResult
  | [] => []
  | .fulfilled value :: rest => value :: settleLoop rest
  | .rejected message :: rest =>
    ⟨"ERROR", message, 0, none, false⟩ :: settleLoop rest

/-- The REST `scanMultiple`: map every file through the per-file scan
oracle (in input order, as `files.map` / `Promise.allSettled` do) and
run the yield loop over the settled results. -/
def restScanMultiple (scan : FileEntry → SettledResult) (files : List FileEntry) :
    List ScanResult :=
  settleLoop (files.map scan)

/-- The yield loop is pointwise on the settled results. -/
theorem settleLoop_eq_map (l : List SettledResult) :
    settleLoop l = l.map fun r =>
      match r with
      | .fulfilled value => value
      | .rejected message => ⟨"ERROR", message, 0, none, false⟩ := by
  induction l with
  | nil => rfl
  | cons r rest ih => cases r <;> simp [settleLoop, ih]

/-- C10: the REST `scanMultiple` yields exactly one `ScanResult` per
input file, in the input list's order, and raises nothing: position `i`
of the output is the fulfilled result of file `i`, or — when file `i`'s
scan rejected — a synthesised result with status `"ERROR"`,
`isInfected = false`, `scanTime = 0`, no filename, and the rejection's
message.  (The gRPC driver, by contrast, orders by remote emission and
re-raises recorded failures — see the driver theorems above.) -/
theorem rest_scanMultiple_per_file (scan : FileEntry → SettledResult)
    (files : List FileEntry) :
    (restScanMultiple scan files).length = files.length ∧
      (∀ i : Nat, (restScanMultiple scan files)[i]? =
        (files[i]?).map fun f =>
          match scan f with
          | .fulfilled value => value
          | .rejected message => ⟨"ERROR", message, 0, none, false⟩) ∧
      (∀ (i : Nat) (f : FileEntry) (m : String),
        files[i]? = some f → scan f = SettledResult.rejected m →
        (restScanMultiple scan files)[i]? =
          some ⟨"ERROR", m, 0, none, false⟩) := by
  have hmap : restScanMultiple scan files = files.map fun f =>
      match scan f with
      | .fulfilled value => value
      | .rejected message => ⟨"ERROR", message, 0, none, false⟩ := by
    unfold restScanMultiple
    rw [settleLoop_eq_map, List.map_map]
    rfl
  refine ⟨?_, ?_, ?_⟩
  · rw [hmap, List.length_map]
  · intro i
    rw [hmap, List.getElem?_map]
  · intro i f m hi hscan
    rw [hmap, List.getElem?_map, hi]
    simp [hscan]

/-- Witness for C10: two files, the second of which rejects; the output
has one entry per file and slot 1 is the synthesised ERROR result. -/
theorem rest_scanMultiple_per_file_witness :
    (restScanMultiple
        (fun f => if f.data.isEmpty then SettledResult.rejected "ENOENT"
          else SettledResult.fulfilled ⟨"OK", "", 1, f.filename, false⟩)
        [⟨[7], some "good.txt"⟩, ⟨[], some "missing.txt"⟩]).length = 2 ∧
      (restScanMultiple
          (fun f => if f.data.isEmpty then SettledResult.rejected "ENOENT"
            else SettledResult.fulfilled ⟨"OK", "", 1, f.filename, false⟩)
          [⟨[7], some "good.txt"⟩, ⟨[], some "missing.txt"⟩])[1]? =
        some ⟨"ERROR", "ENOENT", 0, none, false⟩ := by
  have h := rest_scanMultiple_per_file
    (fun f => if f.data.isEmpty then SettledResult.rejected "ENOENT"
      else SettledResult.fulfilled ⟨"OK", "", 1, f.filename, false⟩)
    [⟨[7], some "good.txt"⟩, ⟨[], some "missing.txt"⟩]
  exact ⟨h.1, h.2.2 1 ⟨[], some "missing.txt"⟩ "ENOENT" rfl rfl⟩

/-! ## Cancellation wiring (C6)

The claim concerns *effect order*, so the embedding records the actions
each client performs, in program order, as a function of whether the
external signal is already aborted at call time (`none` = no signal
supplied, `some b` = signal supplied with `aborted = b`).

gRPC (src/grpc/client.ts): every operation body first invokes the
transport stub — `this.client.healthCheck(...)`, `scanFile`,
`scanStream`, `scanMultiple` all create the call object, starting the
RPC — and only then runs `wireAbortSignal(call, options?.signal)`,
which cancels the already-started call when the signal is already
aborted.

REST (src/rest/client.ts, `fetch` wrapper): the wrapper checks
`options.signal.aborted` and aborts its internal `AbortController`
*before* invoking `globalThis.fetch`, which is then called with an
already-aborted signal; per WHATWG fetch semantics such a call rejects
immediately and dispatches no network request. -/

/-- Observable actions of a gRPC operation around call creation. -/
inductive GrpcAction
  | startCall
  | cancelCall
  | addAbortListener
  deriving DecidableEq

/-- `wireAbortSignal(call, signal)`: no signal — nothing; already
aborted — `call.cancel()`; otherwise install an abort listener. -/
def wireAbortSignal : Option Bool → List GrpcAction
  | none => []
  | some true => [.cancelCall]
  | some false => [.addAbortListener]

/-- Program-order action trace of a gRPC operation: the call is created
(RPC started) first, then the abort signal is wired. -/
def grpcCallActions (signal : Option Bool) : List GrpcAction :=
  GrpcAction.startCall :: wireAbortSignal signal

/-- The abort-controller linking of the REST `fetch` wrapper: whether
the internal controller is aborted before `globalThis.fetch` runs, and
whether an abort listener was installed instead. -/
structure RestAbortLink where
  controllerAborted : Bool
  listenerAdded : Bool
  deriving DecidableEq

/-- Lines 157–165 of src/rest/client.ts: pre-aborted external signal →
abort the controller now; live signal → add a listener; no signal →
neither. -/
def restLinkSignal : Option Bool → RestAbortLink
  | none => ⟨false, false⟩
  | some true => ⟨true, false⟩
  | some false => ⟨false, true⟩

/-- WHATWG fetch semantics used at the boundary: `globalThis.fetch`
invoked with an already-aborted signal rejects at once and dispatches no
network request; otherwise the request goes out. -/
def restNetworkIssued (link : RestAbortLink) : Bool :=
  !link.controllerAborted

/-- C6 counterexample: with an already-aborted signal, the gRPC client
does start a transport call — `startCall` is the very first action, and
only afterwards is the cancellation detected and the call cancelled —
contradicting the claim that no transport call is started before the
cancellation is detected. -/
theorem grpc_preaborted_call_started :
    grpcCallActions (some true) = [GrpcAction.startCall, GrpcAction.cancelCall] ∧
      (grpcCallActions (some true)).head? = some GrpcAction.startCall := by
  constructor
  · rfl
  · rfl

/-- C6 as amended: with an already-aborted external signal the operation
still fails promptly, but the transports differ on network activity —
the REST client aborts its controller before invoking fetch, so no
network request is dispatched, while the gRPC client starts the
transport call first and cancels it immediately afterwards; with a live
or absent signal both proceed normally. -/
theorem preaborted_signal_behavior :
    grpcCallActions (some true) = [GrpcAction.startCall, GrpcAction.cancelCall] ∧
      grpcCallActions (some false) = [GrpcAction.startCall, GrpcAction.addAbortListener] ∧
      grpcCallActions none = [GrpcAction.startCall] ∧
      (restLinkSignal (some true)).controllerAborted = true ∧
      restNetworkIssued (restLinkSignal (some true)) = false ∧
      restNetworkIssued (restLinkSignal (some false)) = true ∧
      restNetworkIssued (restLinkSignal none) = true := by
  exact ⟨rfl, rfl, rfl, rfl, rfl, rfl, rfl⟩

end ClamAV
